import Mathlib

/-!
# Verification of the DataHandler core

A shallow embedding of the DataHandler repository's core: the variant-typed
data model (`TypeElement`, `Vector`, `Table`, the note table initialization)
and the rotation engine (`getRotation`, `vectorToStringVector`) from
`src/datahandler.cpp`, together with theorems checking the specification's
claims against the embedded code.
-/

namespace DataHandler

/-- C++ `size_t` conversion (64-bit): the value an `int` takes when the
usual arithmetic conversions promote it to `size_t` in a mixed
`int == size_t` comparison, as happens in `std::find(remove.begin(),
remove.end(), i)` inside `getRotation`. -/
def sizeT (x : Int) : Nat := (x % (2 ^ 64 : Int)).toNat

/-- Whether rotated position `i` is matched by some entry of `remove`,
i.e. `std::find(remove.begin(), remove.end(), i) != remove.end()` with
`i : size_t` and entries of type `int`. -/
def posExcluded (remove : List Int) (i : Nat) : Bool :=
  remove.any (fun e => sizeT e == i)

/-- The filtering loop of `getRotation`: scan the rotated sequence with
positions `i = 0, 1, ...` and push back exactly the elements whose position
is not matched by an entry of `remove`. -/
def applyRemove (rotacionada : List String) (remove : List Int) : List String :=
  (rotacionada.enum.filter (fun pr => !(posExcluded remove pr.1))).map Prod.snd

/-- `getRotation` from `src/datahandler.cpp`, returning the pair
(serial log, result): copy the sequence, locate the first occurrence of
`inicio`; if absent, print a diagnostic and return the empty vector;
otherwise `std::rotate` so that occurrence comes first and filter out the
positions listed in `remove`. -/
def getRotationRun (sequencia : List String) (inicio : String)
    (remove : List Int) : List String × List String :=
  match sequencia.findIdx? (fun s => s == inicio) with
  | none => (["Erro: Nota inicial não encontrada na sequência!"], [])
  | some p => ([], applyRemove (sequencia.drop p ++ sequencia.take p) remove)

/-- The value returned by `getRotation` (the serial print is a side
channel, kept in `getRotationRun`). -/
def getRotation (sequencia : List String) (inicio : String)
    (remove : List Int) : List String :=
  (getRotationRun sequencia inicio remove).2

/-- The 12-token chromatic note sequence used by the repository. -/
def chromatic : List String :=
  ["C", "C#", "D", "D#", "E", "F"] ++ ["F#", "G", "G#", "A", "A#", "B"]

/-! ### Helper lemmas about the filtering loop -/

theorem applyRemove_nil (rot : List String) : applyRemove rot [] = rot := by
  simp [applyRemove, posExcluded]

theorem applyRemove_congr (rot : List String) (E E' : List Int)
    (h : ∀ i, i < rot.length → posExcluded E i = posExcluded E' i) :
    applyRemove rot E = applyRemove rot E' := by
  unfold applyRemove
  congr 1
  apply List.filter_congr
  intro pr hpr
  obtain ⟨i, x⟩ := pr
  rw [List.mk_mem_enum_iff_getElem?] at hpr
  have hi : i < rot.length := by
    rcases List.getElem?_eq_some.mp hpr with ⟨hlt, _⟩
    exact hlt
  simp [h i hi]

theorem applyRemove_eq_nil_iff (rot : List String) (E : List Int) :
    applyRemove rot E = [] ↔ ∀ i, i < rot.length → posExcluded E i = true := by
  unfold applyRemove
  rw [List.map_eq_nil_iff, List.filter_eq_nil_iff]
  constructor
  · intro h i hi
    have hmem : (i, rot[i]) ∈ rot.enum :=
      (List.mk_mem_enum_iff_getElem?).mpr (List.getElem?_eq_getElem hi)
    have := h _ hmem
    simpa using this
  · intro h pr hpr
    obtain ⟨i, x⟩ := pr
    rw [List.mk_mem_enum_iff_getElem?] at hpr
    have hi : i < rot.length := by
      rcases List.getElem?_eq_some.mp hpr with ⟨hlt, _⟩
      exact hlt
    simp [h i hi]

/-! ### Data model: Element / Row (Vector) / Table -/

/-- The closed variant `TypeElement` (declared in `datahandler.h`, which the
source tree does not include; the four kinds follow the data model used by
`datahandler.cpp`, `printhandler.h` and `note.cpp`): exactly one of integer,
floating-point, text, or sequence-of-text. -/
inductive TypeElement where
  | intV : Int → TypeElement
  | floatV : Float → TypeElement
  | textV : String → TypeElement
  | textSeqV : List String → TypeElement

/-- A `Vector` (Row): an ordered sequence of `TypeElement` values, accessed
through its `values` field as in `printhandler.h` and `datahandler.cpp`. -/
structure Vector where
  values : List TypeElement

/-- A `Table`: an ordered sequence of Rows (`data`) plus the name-to-index
map `rowNameToIndex`, as used by `note.cpp` and `printhandler.h`. -/
structure Table where
  data : List Vector
  rowNameToIndex : List (String × Nat)

/-- `vectorToStringVector` from `src/datahandler.cpp`: for each element of
`vec.values`, push back the held string when the element holds a
`std::string`, and `""` otherwise. -/
def vectorToStringVector (vec : Vector) : List String :=
  vec.values.map fun elem =>
    match elem with
    | .textV s => s
    | _ => ""

/-- `initializeNote` from `src/examples/note/note.cpp`: overwrite the global
note table's `data` with the 8 attribute rows (12 entries each) and its
`rowNameToIndex` with the 8 row names mapped to indices 0..7. -/
def initializeNote (note : Table) : Table :=
  { note with
    data := [
      ⟨[.intV 12, .intV 13, .intV 22, .intV 23, .intV 32, .intV 42,
        .intV 43, .intV 52, .intV 53, .intV 62, .intV 63, .intV 72]⟩,
      ⟨[.intV 1, .intV 2, .intV 3, .intV 4, .intV 5, .intV 6,
        .intV 7, .intV 8, .intV 9, .intV 10, .intV 11, .intV 12]⟩,
      ⟨[.textV "C", .textV "C#", .textV "D", .textV "D#", .textV "E",
        .textV "F", .textV "F#", .textV "G", .textV "G#", .textV "A",
        .textV "A#", .textV "B"]⟩,
      ⟨[.intV 1, .intV 1, .intV 2, .intV 2, .intV 3, .intV 4,
        .intV 4, .intV 5, .intV 5, .intV 6, .intV 6, .intV 7]⟩,
      ⟨[.textV "C", .textV "C", .textV "D", .textV "D", .textV "E",
        .textV "F", .textV "F", .textV "G", .textV "G", .textV "A",
        .textV "A", .textV "B"]⟩,
      ⟨[.intV 2, .intV 3, .intV 2, .intV 3, .intV 2, .intV 2,
        .intV 3, .intV 2, .intV 3, .intV 2, .intV 3, .intV 2]⟩,
      ⟨[.intV 0, .intV 1, .intV 0, .intV 1, .intV 0, .intV 0,
        .intV 1, .intV 0, .intV 1, .intV 0, .intV 1, .intV 0]⟩,
      ⟨[.textV "Dó", .textV "Dó#", .textV "Ré", .textV "Ré#", .textV "Mi",
        .textV "Fá", .textV "Fá#", .textV "Sol", .textV "Sol#", .textV "Lá",
        .textV "Lá#", .textV "Sí"]⟩],
    rowNameToIndex := [
      ("noteid", 0), ("noteordem", 1), ("note", 2), ("soundid", 3),
      ("sound", 4), ("accidentalid", 5), ("accidental_value", 6),
      ("note_pt_br", 7)] }

/-- The Table invariant from the spec: every name in `rowNameToIndex`
references a valid index into `data`. -/
def tableInvariant (t : Table) : Prop :=
  ∀ pr ∈ t.rowNameToIndex, pr.2 < t.data.length

/-- Error taxonomy for the data-model accessors. -/
inductive RowError where
  | UnknownRowName : RowError
  | IndexOutOfRange : RowError
deriving DecidableEq

/-- Modelled from the spec: `Table.rowByName` is declared in
`datahandler.h`, which is not under the source tree; per spec §4.1/§6 it
returns the Row at `rowNameToIndex[name]` and fails with `UnknownRowName`
when `name` is absent from the map (and `IndexOutOfRange` covers a stale
index, per the spec's error taxonomy). -/
def Table.rowByName (t : Table) (name : String) : Except RowError Vector :=
  match t.rowNameToIndex.lookup name with
  | none => .error .UnknownRowName
  | some idx =>
    match t.data[idx]? with
    | some row => .ok row
    | none => .error .IndexOutOfRange

/-! ### A store model for the call boundary of `getRotation`

`getRotation` receives `sequencia` by const reference and builds its result
in a fresh local vector returned by value. To state the frame property we
model the vectors live at a call site as a store of string vectors
addressed by position; a call reads the input at its address and the
returned vector is a fresh allocation appended to the store. -/

structure Store where
  vecs : List (List String)

/-- One call `getRotation(store[a], inicio, remove)` at the store level:
the result is materialised at a fresh address (the old store length) and
every existing address keeps its vector. -/
def getRotationCall (st : Store) (a : Nat) (inicio : String)
    (remove : List Int) : Store × Nat :=
  (⟨st.vecs ++ [getRotation (st.vecs.getD a []) inicio remove]⟩, st.vecs.length)

/-! ### Theorems: the specification's claims checked against the code -/

/-- C1, as stated by the spec, is false at its own concrete input: with the
chromatic sequence, start `"D"` and exclude set `{1,3,6,8,10}`, the code
returns `[D,E,F#,G,A,B,C#]`, not `[D,E,F,G,A,B,C]`. -/
theorem c1_spec_output_refuted :
    getRotation chromatic "D" [1, 3, 6, 8, 10] ≠
      ["D", "E", "F", "G", "A", "B", "C"] := by
  decide

/-- C1 (amended): with the chromatic sequence, start `"D"` and exclude set
`{1,3,6,8,10}`, the rotation step produces `D,D#,E,F,F#,G,G#,A,A#,B,C,C#`
(observable as the result of the same call with an empty exclude set), and
the filtered result is the 7-token sequence `[D,E,F#,G,A,B,C#]`. -/
theorem c1_concrete_scenario :
    getRotation chromatic "D" [] =
      ["D", "D#", "E", "F", "F#", "G", "G#", "A", "A#", "B", "C", "C#"]
    ∧ getRotation chromatic "D" [1, 3, 6, 8, 10] =
      ["D", "E", "F#", "G", "A", "B", "C#"] := by
  decide

/-- The pivot search of `getRotation` finds exactly `List.indexOf`. -/
theorem findIdx?_start (S : List String) (t : String) (hmem : t ∈ S) :
    S.findIdx? (fun s => s == t) = some (S.indexOf t) :=
  List.findIdx?_eq_some_of_exists ⟨t, hmem, by simp⟩

/-- `getRotation` with an empty exclude set is exactly the rotation at the
first occurrence of the start token. -/
theorem getRotation_empty_remove (S : List String) (t : String) (hmem : t ∈ S) :
    getRotation S t [] = S.drop (S.indexOf t) ++ S.take (S.indexOf t) := by
  unfold getRotation getRotationRun
  rw [findIdx?_start S t hmem]
  simp [applyRemove_nil]

/-- C2: with an empty exclude set and a start token `t` occurring in the
(unique-token) sequence `S`, `getRotation` returns the cyclic rotation of
`S` at `t`: it equals `S.drop p ++ S.take p` at the pivot `p` (preserving
the relative cyclic order), has the same length and the same multiset of
elements as `S`, starts with `t`, and ends with the element originally
immediately before `t` (the last element of `S` when `t` is first). -/
theorem c2_rotation_of_start (S : List String) (t : String)
    (hmem : t ∈ S) (hnd : S.Nodup) :
    getRotation S t [] = S.drop (S.indexOf t) ++ S.take (S.indexOf t)
    ∧ (getRotation S t []).length = S.length
    ∧ (getRotation S t []).Perm S
    ∧ (getRotation S t []).head? = some t
    ∧ (S.indexOf t = 0 → (getRotation S t []).getLast? = S.getLast?)
    ∧ (0 < S.indexOf t →
        (getRotation S t []).getLast? = S[S.indexOf t - 1]?) := by
  have hp : S.indexOf t < S.length := List.indexOf_lt_length.mpr hmem
  have hmain := getRotation_empty_remove S t hmem
  refine ⟨hmain, ?_, ?_, ?_, ?_, ?_⟩
  · rw [hmain]
    simp
    omega
  · rw [hmain]
    exact (List.perm_append_comm).trans (by rw [List.take_append_drop])
  · rw [hmain, List.drop_eq_getElem_cons hp]
    simp [List.getElem_indexOf hp]
  · intro h0
    rw [hmain, h0]
    simp
  · intro h0
    rw [hmain]
    have htake : (S.take (S.indexOf t)).getLast? = S[S.indexOf t - 1]? := by
      rw [List.getLast?_eq_getElem?, List.length_take]
      rw [Nat.min_eq_left (Nat.le_of_lt hp)]
      exact List.getElem?_take_of_lt (by omega)
    have hne : S.take (S.indexOf t) ≠ [] := by
      simp [List.take_eq_nil_iff]
      constructor
      · omega
      · intro hS
        subst hS
        simp at hmem
    rw [List.getLast?_append]
    rw [htake]
    rcases h : S[S.indexOf t - 1]? with _ | x
    · rw [List.getElem?_eq_none_iff] at h
      omega
    · simp

/-- C2 witness at `S = [a,b,c]`, `t = "b"`. -/
theorem c2_rotation_of_start_witness :
    getRotation ["a", "b", "c"] "b" [] = ["b", "c", "a"]
    ∧ (getRotation ["a", "b", "c"] "b" []).head? = some "b" := by
  have h := c2_rotation_of_start ["a", "b", "c"] "b" (by decide) (by decide)
  exact ⟨by rw [h.1]; decide, h.2.2.2.1⟩

/-- The pivot search fails exactly when the start token is absent. -/
theorem findIdx?_start_none (S : List String) (t : String) :
    S.findIdx? (fun s => s == t) = none ↔ t ∉ S := by
  rw [List.findIdx?_eq_none_iff]
  constructor
  · intro h hmem
    have := h t hmem
    simp at this
  · intro h x hx
    rw [beq_eq_false_iff_ne]
    intro he
    exact h (he ▸ hx)

/-- The rotated copy has the same length as the input. -/
theorem length_rotated (S : List String) (p : Nat) :
    (S.drop p ++ S.take p).length = S.length := by
  simp
  omega

/-- C3: when the start token does not occur, `getRotation` returns the
empty sequence and the serial diagnostic is emitted; and the empty result
appears exactly when the start token is absent or the exclude set covers
every rotated position. -/
theorem c3_start_not_found (S : List String) (t : String) (E : List Int) :
    (t ∉ S → getRotation S t E = [] ∧ (getRotationRun S t E).1 ≠ [])
    ∧ (getRotation S t E = [] ↔
        t ∉ S ∨ ∀ i, i < S.length → posExcluded E i = true) := by
  unfold getRotation getRotationRun
  cases hf : S.findIdx? (fun s => s == t) with
  | none =>
    have habs : t ∉ S := (findIdx?_start_none S t).mp hf
    exact ⟨fun _ => ⟨rfl, by simp⟩, by simp [habs]⟩
  | some p =>
    have hmem : t ∈ S := by
      by_contra habs
      rw [← findIdx?_start_none S t] at habs
      rw [habs] at hf
      exact Option.noConfusion hf
    refine ⟨fun habs => absurd hmem habs, ?_⟩
    simp only []
    rw [applyRemove_eq_nil_iff, length_rotated]
    constructor
    · intro h
      exact Or.inr h
    · intro h
      rcases h with h | h
      · exact absurd hmem h
      · exact h

/-- C3 witness at `S = ["a"]`, `t = "z"`, `E = []`. -/
theorem c3_start_not_found_witness :
    getRotation ["a"] "z" [] = [] ∧ (getRotationRun ["a"] "z" []).1 ≠ [] :=
  (c3_start_not_found ["a"] "z" []).1 (by decide)

/-- C5: rotating an already-rotated sequence at the same start token is the
identity: the start token sits at position 0 of the first result, so the
second rotation pivots at 0. -/
theorem c5_rotation_idempotent (S : List String) (t : String) (hmem : t ∈ S) :
    getRotation (getRotation S t []) t [] = getRotation S t [] := by
  have hplt : S.indexOf t < S.length := List.indexOf_lt_length.mpr hmem
  have hgetp : S[S.indexOf t] = t := List.getElem_indexOf hplt
  have hR : getRotation S t [] =
      t :: (S.drop (S.indexOf t + 1) ++ S.take (S.indexOf t)) := by
    rw [getRotation_empty_remove S t hmem, List.drop_eq_getElem_cons hplt, hgetp]
    simp
  calc getRotation (getRotation S t []) t []
      = getRotation (t :: (S.drop (S.indexOf t + 1) ++ S.take (S.indexOf t)))
          t [] := by rw [hR]
    _ = t :: (S.drop (S.indexOf t + 1) ++ S.take (S.indexOf t)) := by
        rw [getRotation_empty_remove _ t (List.mem_cons_self _ _)]
        simp [List.indexOf_cons_self]
    _ = getRotation S t [] := hR.symm

/-- C5 witness at the chromatic sequence with start `"D"`. -/
theorem c5_rotation_idempotent_witness :
    getRotation (getRotation chromatic "D" []) "D" [] =
      getRotation chromatic "D" [] :=
  c5_rotation_idempotent chromatic "D" (by decide)

/-- Unfolded shape of `getRotation` as a single match. -/
theorem getRotation_eq_match (S : List String) (t : String) (E : List Int) :
    getRotation S t E =
      match S.findIdx? (fun s => s == t) with
      | none => []
      | some p => applyRemove (S.drop p ++ S.take p) E := by
  unfold getRotation getRotationRun
  cases S.findIdx? (fun s => s == t) <;> rfl

/-- Splitting one entry out of the exclude list. -/
theorem posExcluded_middle (E1 E2 : List Int) (e : Int) (i : Nat) :
    posExcluded (E1 ++ e :: E2) i =
      ((sizeT e == i) || posExcluded (E1 ++ E2) i) := by
  simp only [posExcluded, List.any_append, List.any_cons]
  exact Bool.or_left_comm _ _ _

/-- C4: an exclude entry at least as large as the sequence length (within
the `int` range) matches no rotated position: dropping it from the exclude
list leaves the result of `getRotation` unchanged, with no fault. -/
theorem c4_oob_exclude_ignored (S : List String) (t : String)
    (E1 E2 : List Int) (e : Int)
    (hlo : (S.length : Int) ≤ e) (hhi : e < 2 ^ 31) :
    getRotation S t (E1 ++ e :: E2) = getRotation S t (E1 ++ E2) := by
  rw [getRotation_eq_match, getRotation_eq_match]
  cases S.findIdx? (fun s => s == t) with
  | none => rfl
  | some p =>
    apply applyRemove_congr
    intro i hi
    rw [length_rotated] at hi
    rw [posExcluded_middle]
    have hz : (sizeT e == i) = false := by
      rw [beq_eq_false_iff_ne]
      unfold sizeT
      have h31 : (2 : Int) ^ 31 = 2147483648 := by norm_num
      have h64 : (2 : Int) ^ 64 = 18446744073709551616 := by norm_num
      rw [h31] at hhi
      rw [h64]
      omega
    rw [hz]
    simp

/-- C4 witness: the out-of-range entry `99` changes nothing for the
chromatic sequence. -/
theorem c4_oob_exclude_ignored_witness :
    getRotation chromatic "D" ([1, 3] ++ 99 :: [6]) =
      getRotation chromatic "D" ([1, 3] ++ [6]) :=
  c4_oob_exclude_ignored chromatic "D" [1, 3] [6] 99 (by decide) (by decide)

/-- C10: negative exclude entries (in the `int` range, against any sequence
a real machine can hold) are converted to huge unsigned values by the
`int == size_t` comparison, so they match no rotated position: filtering
them out of the exclude list leaves the result of `getRotation` unchanged,
with no fault. -/
theorem c10_negative_exclude_ignored (S : List String) (t : String)
    (E : List Int) (hrange : ∀ e ∈ E, -(2 ^ 31) ≤ e)
    (hlen : S.length < 2 ^ 63) :
    getRotation S t E = getRotation S t (E.filter (fun e => 0 ≤ e)) := by
  rw [getRotation_eq_match, getRotation_eq_match]
  cases S.findIdx? (fun s => s == t) with
  | none => rfl
  | some p =>
    apply applyRemove_congr
    intro i hi
    rw [length_rotated] at hi
    induction E with
    | nil => rfl
    | cons a E ih =>
      have ha := hrange a (List.mem_cons_self a E)
      have ihE := ih (fun e he => hrange e (List.mem_cons_of_mem a he))
      by_cases h0 : (0 : Int) ≤ a
      · simp only [posExcluded, List.any_cons, List.filter_cons,
          decide_eq_true_eq, if_pos h0]
        rw [show (E.filter (fun e => decide (0 ≤ e))).any
              (fun e => sizeT e == i) = posExcluded (E.filter (fun e => decide (0 ≤ e))) i
            from rfl, ← ihE]
        rfl
      · have hz : (sizeT a == i) = false := by
          rw [beq_eq_false_iff_ne]
          unfold sizeT
          have h31 : (2 : Int) ^ 31 = 2147483648 := by norm_num
          have h63 : (2 : Nat) ^ 63 = 9223372036854775808 := by norm_num
          have h64 : (2 : Int) ^ 64 = 18446744073709551616 := by norm_num
          rw [h31] at ha
          rw [h63] at hlen
          rw [h64]
          push_neg at h0
          omega
        simp only [posExcluded, List.any_cons, List.filter_cons,
          decide_eq_true_eq, if_neg h0, hz, Bool.false_or]
        exact ihE

/-- C10 witness: the negative entry `-1` changes nothing for the chromatic
sequence. -/
theorem c10_negative_exclude_ignored_witness :
    getRotation chromatic "D" [1, -1, 3] =
      getRotation chromatic "D" ([1, -1, 3].filter (fun e => 0 ≤ e)) :=
  c10_negative_exclude_ignored chromatic "D" [1, -1, 3] (by decide) (by decide)

/-- C6: at the store level, a call to `getRotation` leaves every existing
vector (in particular the input) unchanged, and the returned vector lives
at a fresh address distinct from the input's, holding the rotation of the
input. -/
theorem c6_no_mutation (st : Store) (a : Nat) (t : String) (E : List Int)
    (ha : a < st.vecs.length) :
    (∀ b, b < st.vecs.length →
        (getRotationCall st a t E).1.vecs[b]? = st.vecs[b]?)
    ∧ (getRotationCall st a t E).2 ≠ a
    ∧ (getRotationCall st a t E).1.vecs[(getRotationCall st a t E).2]? =
        some (getRotation (st.vecs.getD a []) t E) := by
  refine ⟨?_, ?_, ?_⟩
  · intro b hb
    exact List.getElem?_append_left hb
  · simp only [getRotationCall]
    omega
  · simp [getRotationCall]

/-- C6 witness on a one-vector store. -/
theorem c6_no_mutation_witness :
    (getRotationCall ⟨[["C", "D"]]⟩ 0 "D" []).1.vecs[0]? = some ["C", "D"]
    ∧ (getRotationCall ⟨[["C", "D"]]⟩ 0 "D" []).2 ≠ 0 := by
  have h := c6_no_mutation ⟨[["C", "D"]]⟩ 0 "D" [] (by decide)
  exact ⟨by rw [h.1 0 (by decide)]; rfl, h.2.1⟩

/-- C7: after `initializeNote` runs, the Table invariant holds for the note
table: each of the 8 mapped indices 0..7 is a valid index into `data`
(which holds 8 rows). -/
theorem c7_note_invariant (note : Table) :
    tableInvariant (initializeNote note) := by
  intro pr hpr
  simp only [initializeNote, List.mem_cons, List.not_mem_nil, or_false] at hpr
  rcases hpr with rfl | rfl | rfl | rfl | rfl | rfl | rfl | rfl <;>
    simp [initializeNote]

/-- C7 witness on a concrete (empty) starting table. -/
theorem c7_note_invariant_witness :
    tableInvariant (initializeNote (Table.mk [] [])) :=
  c7_note_invariant (Table.mk [] [])

/-- C8: `rowByName` returns the Row stored at index `rowNameToIndex[name]`
when `name` is a key of the map, and fails with `UnknownRowName` when the
name is absent; on a Table with names `["a", "b"]` over two Rows it returns
the Row at index 0 for `"a"`, the Row at index 1 for `"b"`, and fails with
`UnknownRowName` for a third name. -/
theorem c8_rowByName_contract :
    (∀ (T : Table) (name : String) (idx : Nat) (row : Vector),
        T.rowNameToIndex.lookup name = some idx →
        T.data[idx]? = some row →
        T.rowByName name = Except.ok row)
    ∧ (∀ (T : Table) (name : String),
        T.rowNameToIndex.lookup name = none →
        T.rowByName name = Except.error RowError.UnknownRowName)
    ∧ (∀ (r0 r1 : Vector),
        (Table.mk [r0, r1] [("a", 0), ("b", 1)]).rowByName "a" = Except.ok r0
        ∧ (Table.mk [r0, r1] [("a", 0), ("b", 1)]).rowByName "b" = Except.ok r1
        ∧ (Table.mk [r0, r1] [("a", 0), ("b", 1)]).rowByName "c" =
            Except.error RowError.UnknownRowName) := by
  refine ⟨?_, ?_, ?_⟩
  · intro T name idx row h1 h2
    simp only [Table.rowByName, h1, h2]
  · intro T name h1
    simp only [Table.rowByName, h1]
  · intro r0 r1
    exact ⟨rfl, rfl, rfl⟩

/-- C8 witness on a concrete two-row table. -/
theorem c8_rowByName_contract_witness :
    (Table.mk [⟨[TypeElement.intV 1]⟩, ⟨[TypeElement.intV 2]⟩]
        [("a", 0), ("b", 1)]).rowByName "b" =
      Except.ok ⟨[TypeElement.intV 2]⟩ :=
  c8_rowByName_contract.1
    (Table.mk [⟨[TypeElement.intV 1]⟩, ⟨[TypeElement.intV 2]⟩]
      [("a", 0), ("b", 1)]) "b" 1 ⟨[TypeElement.intV 2]⟩ rfl rfl

/-- C9: `vectorToStringVector` is total and length-preserving; position `i`
of the result carries the stored string when element `i` holds text and the
empty string for every non-text element. -/
theorem c9_vectorToStringVector_total (v : Vector) :
    (vectorToStringVector v).length = v.values.length
    ∧ ∀ i, (hi : i < v.values.length) →
        (vectorToStringVector v)[i]? =
          some (match v.values[i] with
                | TypeElement.textV s => s
                | _ => "") := by
  constructor
  · simp [vectorToStringVector]
  · intro i hi
    simp [vectorToStringVector, List.getElem?_eq_getElem hi]

/-- C9 witness on a mixed-kind vector. -/
theorem c9_vectorToStringVector_total_witness :
    (vectorToStringVector ⟨[TypeElement.intV 3, TypeElement.textV "x",
        TypeElement.floatV 1.5, TypeElement.textSeqV ["a"]]⟩).length = 4
    ∧ (vectorToStringVector ⟨[TypeElement.intV 3, TypeElement.textV "x",
        TypeElement.floatV 1.5, TypeElement.textSeqV ["a"]]⟩)[1]? =
      some "x" := by
  have h := c9_vectorToStringVector_total ⟨[TypeElement.intV 3,
    TypeElement.textV "x", TypeElement.floatV 1.5, TypeElement.textSeqV ["a"]]⟩
  exact ⟨h.1, h.2 1 (by simp)⟩

end DataHandler
